import Mathlib

/- Shallow embedding of the wrapix Linux sandbox helpers
   (src/lib/sandbox/linux/krun-relay.c and src/lib/sandbox/linux/fakeuid.c).

   The relay's main loop is modelled as a function consuming a list of
   environment events (asynchronous SIGCHLD deliveries interleaved with poll
   outcomes) and producing a trace of observable actions (writes to the PTY
   master and to stdout, closing the master, restoring terminal attributes,
   the blocking reap) together with the relay's own exit code.  Machine
   integers are modelled as Nat with the explicit masks the C code applies. -/

namespace Wrapix

/-- Input transform of krun-relay.c, lines 124 to 127: in the chunk read from
stdin, every line-feed byte (0x0a) is replaced by a carriage-return byte
(0x0d); all other bytes are left as they are. -/
def lfToCr (bs : List Nat) : List Nat :=
  bs.map (fun b => if b = 10 then 13 else b)

/-- Shared state written by the SIGCHLD handler: the child_exited flag and the
raw wait status child_status (krun-relay.c, lines 31 and 32). -/
structure RelayState where
  child_exited : Bool
  child_status : Nat
deriving DecidableEq

/-- The SIGCHLD handler, krun-relay.c lines 34 to 41: it performs a
non-blocking reap; when the reap returns a pid (modelled as some status), it
records the raw status and sets the exited flag; otherwise it changes
nothing.  The handler runs to completion before the interrupted main-loop
code resumes, so it is a single atomic step of the model. -/
def sigchld_handler (s : RelayState) (reaped : Option Nat) : RelayState :=
  match reaped with
  | none => s
  | some st => { child_exited := true, child_status := st }

/-- Errno values distinguished by the relay loop. -/
inductive Errno where
  | eintr
  | eagain
  | eio
  | other
deriving DecidableEq

/-- Outcome of one read(2) call: a chunk of n > 0 bytes, end of file (n = 0),
or a failure with an errno. -/
inductive ReadRes where
  | data (bytes : List Nat)
  | eof
  | err (e : Errno)
deriving DecidableEq

/-- Outcome of one poll(2) call in the main loop: failure with EINTR, failure
with another errno, timeout, or readiness with the revents bits of the two
descriptors and the results the subsequent reads would produce. -/
inductive PollOut where
  | eintr
  | errOther
  | timeout
  | ready (stdinIn masterIn stdinHupErr masterHup : Bool) (stdinR masterR : ReadRes)
deriving DecidableEq

/-- Environment event driving the relay: an asynchronous SIGCHLD delivery
(whose handler reap may or may not find a terminated child), or the outcome
of the next poll iteration. -/
inductive Event where
  | sigchld (reaped : Option Nat)
  | poll (p : PollOut)
deriving DecidableEq

/-- Observable action emitted by the relay process. -/
inductive Action where
  | setRawMode
  | writeMaster (bytes : List Nat)
  | writeStdout (bytes : List Nat)
  | closeMaster
  | restoreTermios
  | reapBlocking
deriving DecidableEq

/-- Predicate recognising the data-forwarding actions of the I/O loop. -/
def isDataWrite : Action → Bool
  | Action.writeMaster _ => true
  | Action.writeStdout _ => true
  | _ => false

/-- PTY-master branch of one loop iteration, krun-relay.c lines 131 to 138:
when POLLIN is set, a read returning n > 0 bytes writes them unchanged to
stdout; n = 0 does nothing; a failure breaks the loop unless errno is EAGAIN
or EIO.  The Bool result records whether the loop breaks. -/
def masterStep (mIn : Bool) (mR : ReadRes) : List Action × Bool :=
  if mIn then
    match mR with
    | ReadRes.data bs => if bs.isEmpty then ([], false) else ([Action.writeStdout bs], false)
    | ReadRes.eof => ([], false)
    | ReadRes.err e => if e = Errno.eagain ∨ e = Errno.eio then ([], false) else ([], true)
  else ([], false)

/-- One full iteration of the relay loop body after the child_exited check,
krun-relay.c lines 105 to 142: poll failure with EINTR retries, any other
poll failure breaks, a timeout retries; on readiness the stdin branch (lines
119 to 129) runs first — a read returning n <= 0 breaks, otherwise the
transformed chunk is written to the master — then the master branch, then the
POLLHUP and POLLERR checks (lines 140 and 141).  Returns the actions emitted
and whether the loop breaks. -/
def iterate (p : PollOut) : List Action × Bool :=
  match p with
  | PollOut.eintr => ([], false)
  | PollOut.errOther => ([], true)
  | PollOut.timeout => ([], false)
  | PollOut.ready sIn mIn sHup mHup sR mR =>
    if sIn then
      match sR with
      | ReadRes.data bs =>
        if bs.isEmpty then ([], true)
        else
          (Action.writeMaster (lfToCr bs) :: (masterStep mIn mR).1,
            (masterStep mIn mR).2 || sHup || mHup)
      | ReadRes.eof => ([], true)
      | ReadRes.err _ => ([], true)
    else
      ((masterStep mIn mR).1, (masterStep mIn mR).2 || sHup || mHup)

/-- The chunk the stdin branch of an iteration would read, when that branch
performs a read at all. -/
def stdinChunkOf : PollOut → Option (List Nat)
  | PollOut.ready true _ _ _ (ReadRes.data bs) _ => some bs
  | _ => none

/-- The chunk the master branch of an iteration would read, when that branch
performs a read returning data. -/
def masterChunkOf : PollOut → Option (List Nat)
  | PollOut.ready _ true _ _ _ (ReadRes.data bs) => some bs
  | _ => none

/-- Result of running the while loop: the shared state when the loop stops,
the actions emitted, and whether the loop in fact ended (the modelled event
list may also run out while the loop is still running). -/
structure LoopOut where
  state : RelayState
  tr : List Action
  ended : Bool
deriving DecidableEq

/-- The relay while loop, krun-relay.c lines 104 to 143.  A sigchld event
runs the handler; at a poll event the loop condition (line 104) is checked
first — an already-set exited flag ends the loop — then one iteration of the
body runs and either breaks or continues with the rest of the events. -/
def runLoop : RelayState → List Event → LoopOut
  | s, [] => ⟨s, [], false⟩
  | s, Event.sigchld r :: rest => runLoop (sigchld_handler s r) rest
  | s, Event.poll p :: rest =>
    if s.child_exited then ⟨s, [], true⟩
    else if (iterate p).2 then ⟨s, (iterate p).1, true⟩
    else
      let o := runLoop s rest
      ⟨o.state, (iterate p).1 ++ o.tr, o.ended⟩

/-- The post-loop drain, krun-relay.c lines 146 to 150: chunks read from the
master are forwarded unchanged to stdout until a read returns n <= 0
(modelled as an empty chunk or the end of the list). -/
def drainActs : List (List Nat) → List Action
  | [] => []
  | bs :: rest => if bs.isEmpty then [] else Action.writeStdout bs :: drainActs rest

/-- The WIFEXITED test applied at krun-relay.c line 165: the low seven bits
of the wait status are zero. -/
def WIFEXITED (status : Nat) : Bool := status &&& 127 == 0

/-- The WEXITSTATUS extraction applied at krun-relay.c line 165: bits eight
to fifteen of the wait status. -/
def WEXITSTATUS (status : Nat) : Nat := (status >>> 8) &&& 255

/-- The final return expression of main, krun-relay.c line 165. -/
def exitCodeOf (status : Nat) : Nat :=
  if WIFEXITED status then WEXITSTATUS status else 1

/-- Outcome of one relay run: the process exit code, the final value of
child_status, and the trace of observable actions. -/
structure RunResult where
  exitCode : Nat
  finalStatus : Nat
  trace : List Action
deriving DecidableEq

/-- One run of the relay after a successful forkpty, krun-relay.c lines 83 to
165: raw mode is applied when capture succeeded (lines 88 to 94), the loop
runs over the events, then teardown: drain (146 to 150), close the master
(152), restore the captured attributes when capture succeeded (154 to 156),
and — after applying any SIGCHLD delivered between loop exit and the check at
line 159, modelled by postReap — a blocking wait for the child when the
exited flag is still unset (159 to 163), whose status blockStatus is then
recorded.  Returns none when the event list ends before the loop does. -/
def relayRun (have_orig : Bool) (events : List Event) (drain : List (List Nat))
    (postReap : Option Nat) (blockStatus : Nat) : Option RunResult :=
  let o := runLoop ⟨false, 0⟩ events
  if o.ended then
    let s1 := sigchld_handler o.state postReap
    let s2 : RelayState := if s1.child_exited then s1 else ⟨false, blockStatus⟩
    let reapTr : List Action := if s1.child_exited then [] else [Action.reapBlocking]
    some ⟨exitCodeOf s2.child_status, s2.child_status,
      (if have_orig then [Action.setRawMode] else []) ++ o.tr ++ drainActs drain
        ++ [Action.closeMaster]
        ++ (if have_orig then [Action.restoreTermios] else []) ++ reapTr⟩
  else none

/-- The whole of main, krun-relay.c lines 43 to 165: a failed forkpty (lines
64 to 68) returns 1 immediately with nothing done (the finalStatus field is
unused on this path); otherwise the relay runs.  The child branch (lines 70
to 81) execs the command and leaves the parent's state untouched. -/
def relayMain (forkptyFail : Bool) (have_orig : Bool) (events : List Event)
    (drain : List (List Nat)) (postReap : Option Nat) (blockStatus : Nat) :
    Option RunResult :=
  if forkptyFail then some ⟨1, 0, []⟩
  else relayRun have_orig events drain postReap blockStatus

/-- Exit code of the child when exec fails, krun-relay.c line 80. -/
def execFailCode : Nat := 127

/-- Wait status reported for a child that exited normally with the given
code: the code in bits eight to fifteen, low seven bits zero. -/
def mkExitStatus (code : Nat) : Nat := code * 256

/-- Console-attribute semantics of a trace: starting from attribute set cur,
a setRawMode action installs the raw set, a restoreTermios action reinstalls
the captured set orig, and every other action leaves the console alone. -/
def attrsAfter (orig raw : Nat) : Nat → List Action → Nat
  | cur, [] => cur
  | _, Action.setRawMode :: rest => attrsAfter orig raw raw rest
  | _, Action.restoreTermios :: rest => attrsAfter orig raw orig rest
  | cur, _ :: rest => attrsAfter orig raw cur rest

/-- Occurrence count of an action in a trace. -/
def countAct (a : Action) : List Action → Nat
  | [] => 0
  | b :: rest => (if b = a then 1 else 0) + countAct a rest

/-- Digit-accumulation loop of atoi: consumes leading decimal digits,
stopping at the first non-digit. -/
def atoiLoop : List Char → Nat → Nat
  | [], acc => acc
  | ch :: rest, acc =>
    if ch.isDigit then atoiLoop rest (10 * acc + (ch.toNat - 48)) else acc

/-- Whitespace recognised by atoi (C isspace): space and the characters with
codes 9 to 13. -/
def isSpaceChar (ch : Char) : Bool := ch = ' ' || (9 ≤ ch.toNat && ch.toNat ≤ 13)

/-- The C atoi function as used at krun-relay.c lines 48 and 49 and
fakeuid.c lines 45 and 46: skip leading whitespace, an optional sign, then
leading digits; a string with no leading digits yields 0. -/
def atoi (s : List Char) : Int :=
  let t := s.dropWhile isSpaceChar
  match t with
  | '-' :: rest => - (atoiLoop rest 0 : Int)
  | '+' :: rest => (atoiLoop rest 0 : Int)
  | _ => (atoiLoop t 0 : Int)

/-- The C conversion of int to unsigned short applied when building the
winsize struct (krun-relay.c lines 61 and 62, fakeuid.c lines 45 and 46):
reduction modulo 2 to the 16. -/
def toUShort (i : Int) : Nat := (i % 65536).toNat

/-- Row count selected by krun-relay.c lines 45 to 48: 24 when the
WRAPIX_TERM_ROWS variable is absent, otherwise atoi of its value. -/
def termRows (r : Option (List Char)) : Int :=
  match r with
  | none => 24
  | some s => atoi s

/-- Column count selected by krun-relay.c lines 45 to 49: 80 when the
WRAPIX_TERM_COLS variable is absent, otherwise atoi of its value. -/
def termCols (c : Option (List Char)) : Int :=
  match c with
  | none => 80
  | some s => atoi s

/-- The ws_row field passed to forkpty, krun-relay.c line 61. -/
def wsRow (r : Option (List Char)) : Nat := toUShort (termRows r)

/-- The ws_col field passed to forkpty, krun-relay.c line 62. -/
def wsCol (c : Option (List Char)) : Nat := toUShort (termCols c)

/-- The two fields of struct winsize used by the code. -/
structure WinSize where
  ws_row : Nat
  ws_col : Nat
deriving DecidableEq

/-- The TIOCGWINSZ request code (Linux, 0x5413). -/
def TIOCGWINSZ : Nat := 21523

/-- The patch applied by fakeuid.c lines 43 to 46: each dimension is
overwritten from its environment variable when that variable is present, and
kept otherwise. -/
def patchWinsize (ws : WinSize) (envRows envCols : Option (List Char)) : WinSize :=
  let w1 := match envRows with
    | some s => { ws with ws_row := toUShort (atoi s) }
    | none => ws
  match envCols with
  | some s => { w1 with ws_col := toUShort (atoi s) }
  | none => w1

/-- The ioctl wrapper of fakeuid.c, lines 27 to 52.  The real underlying
ioctl is modelled by its observable outcome: realRet is its return value and
realWs the winsize contents after it ran (for a non-winsize request the
second component just carries the caller's buffer through).  Every request is
forwarded to the real ioctl; for TIOCGWINSZ, when the real call failed or
left both dimensions zero (line 42), the dimensions are patched from the
environment and 0 is returned (lines 43 to 47). -/
def ioctl (request : Nat) (realRet : Int) (realWs : WinSize)
    (envRows envCols : Option (List Char)) : Int × WinSize :=
  if request = TIOCGWINSZ then
    if realRet ≠ 0 ∨ (realWs.ws_row = 0 ∧ realWs.ws_col = 0) then
      (0, patchWinsize realWs envRows envCols)
    else (realRet, realWs)
  else (realRet, realWs)

/-- Helper: unfolding the loop at a sigchld event. -/
theorem runLoop_sigchld (s : RelayState) (r : Option Nat) (rest : List Event) :
    runLoop s (Event.sigchld r :: rest) = runLoop (sigchld_handler s r) rest := rfl

/-- Helper: unfolding the loop at a poll event when the flag is already set. -/
theorem runLoop_poll_exited (s : RelayState) (p : PollOut) (rest : List Event)
    (hs : s.child_exited = true) :
    runLoop s (Event.poll p :: rest) = ⟨s, [], true⟩ := by
  simp [runLoop, hs]

/-- Helper: unfolding the loop at a poll event when the flag is unset and the
iteration breaks. -/
theorem runLoop_poll_broke (s : RelayState) (p : PollOut) (rest : List Event)
    (hs : s.child_exited = false) (hb : (iterate p).2 = true) :
    runLoop s (Event.poll p :: rest) = ⟨s, (iterate p).1, true⟩ := by
  simp [runLoop, hs, hb]

/-- Helper: unfolding the loop at a poll event when the flag is unset and the
iteration continues. -/
theorem runLoop_poll_cont (s : RelayState) (p : PollOut) (rest : List Event)
    (hs : s.child_exited = false) (hb : (iterate p).2 = false) :
    runLoop s (Event.poll p :: rest) =
      ⟨(runLoop s rest).state, (iterate p).1 ++ (runLoop s rest).tr,
        (runLoop s rest).ended⟩ := by
  simp [runLoop, hs, hb]

/-- Helper: every action an iteration emits is a data write originating in
one of the iteration's reads: a writeMaster of the transformed stdin chunk,
or a writeStdout of the untouched master chunk. -/
theorem iterate_mem_src (p : PollOut) :
    ∀ a ∈ (iterate p).1,
      (∃ bs, stdinChunkOf p = some bs ∧ bs ≠ [] ∧ a = Action.writeMaster (lfToCr bs)) ∨
      (∃ bs, masterChunkOf p = some bs ∧ bs ≠ [] ∧ a = Action.writeStdout bs) := by
  have hm : ∀ (sIn mIn sHup mHup : Bool) (sR mR : ReadRes),
      ∀ a ∈ (masterStep mIn mR).1,
        ∃ bs, masterChunkOf (PollOut.ready sIn mIn sHup mHup sR mR) = some bs ∧
          bs ≠ [] ∧ a = Action.writeStdout bs := by
    intro sIn mIn sHup mHup sR mR a ha
    cases mIn with
    | false => simp [masterStep] at ha
    | true =>
      cases mR with
      | data bs =>
        cases hbs : bs.isEmpty with
        | true => simp [masterStep, hbs] at ha
        | false =>
          simp [masterStep, hbs] at ha
          exact ⟨bs, rfl, by simpa using hbs, ha⟩
      | eof => simp [masterStep] at ha
      | err e =>
        by_cases he : e = Errno.eagain ∨ e = Errno.eio <;> simp [masterStep, he] at ha
  intro a ha
  cases p with
  | eintr => simp [iterate] at ha
  | errOther => simp [iterate] at ha
  | timeout => simp [iterate] at ha
  | ready sIn mIn sHup mHup sR mR =>
    cases sIn with
    | false =>
      simp only [iterate] at ha
      exact Or.inr (hm false mIn sHup mHup sR mR a ha)
    | true =>
      cases sR with
      | data bs =>
        cases hbs : bs.isEmpty with
        | true => simp [iterate, hbs] at ha
        | false =>
          rw [show iterate (PollOut.ready true mIn sHup mHup (ReadRes.data bs) mR) =
            (Action.writeMaster (lfToCr bs) :: (masterStep mIn mR).1,
              (masterStep mIn mR).2 || sHup || mHup) by simp [iterate, hbs]] at ha
          rcases List.mem_cons.mp ha with h | h
          · exact Or.inl ⟨bs, rfl, by simpa using hbs, h⟩
          · exact Or.inr (hm true mIn sHup mHup (ReadRes.data bs) mR a h)
      | eof => simp [iterate] at ha
      | err e => simp [iterate] at ha

/-- Helper: every action in the loop trace is a data write originating in a
read performed at one of the consumed poll events. -/
theorem runLoop_mem_src (evs : List Event) :
    ∀ s : RelayState, ∀ a ∈ (runLoop s evs).tr,
      (∃ p bs, Event.poll p ∈ evs ∧ stdinChunkOf p = some bs ∧ bs ≠ [] ∧
        a = Action.writeMaster (lfToCr bs)) ∨
      (∃ p bs, Event.poll p ∈ evs ∧ masterChunkOf p = some bs ∧ bs ≠ [] ∧
        a = Action.writeStdout bs) := by
  induction evs with
  | nil => intro s a ha; simp [runLoop] at ha
  | cons e rest ih =>
    intro s a ha
    cases e with
    | sigchld r =>
      rw [runLoop_sigchld] at ha
      rcases ih _ a ha with ⟨p, bs, hp, h1, h2, h3⟩ | ⟨p, bs, hp, h1, h2, h3⟩
      · exact Or.inl ⟨p, bs, List.mem_cons_of_mem _ hp, h1, h2, h3⟩
      · exact Or.inr ⟨p, bs, List.mem_cons_of_mem _ hp, h1, h2, h3⟩
    | poll p =>
      cases hs : s.child_exited with
      | true => rw [runLoop_poll_exited s p rest hs] at ha; simp at ha
      | false =>
        cases hb : (iterate p).2 with
        | true =>
          rw [runLoop_poll_broke s p rest hs hb] at ha
          rcases iterate_mem_src p a ha with ⟨bs, h1, h2, h3⟩ | ⟨bs, h1, h2, h3⟩
          · exact Or.inl ⟨p, bs, List.mem_cons_self _ _, h1, h2, h3⟩
          · exact Or.inr ⟨p, bs, List.mem_cons_self _ _, h1, h2, h3⟩
        | false =>
          rw [runLoop_poll_cont s p rest hs hb] at ha
          rcases List.mem_append.mp ha with ha | ha
          · rcases iterate_mem_src p a ha with ⟨bs, h1, h2, h3⟩ | ⟨bs, h1, h2, h3⟩
            · exact Or.inl ⟨p, bs, List.mem_cons_self _ _, h1, h2, h3⟩
            · exact Or.inr ⟨p, bs, List.mem_cons_self _ _, h1, h2, h3⟩
          · rcases ih s a ha with ⟨q, bs, hp, h1, h2, h3⟩ | ⟨q, bs, hp, h1, h2, h3⟩
            · exact Or.inl ⟨q, bs, List.mem_cons_of_mem _ hp, h1, h2, h3⟩
            · exact Or.inr ⟨q, bs, List.mem_cons_of_mem _ hp, h1, h2, h3⟩

/-- Helper: every action in the loop trace is a data write. -/
theorem runLoop_mem_isDataWrite (evs : List Event) (s : RelayState) :
    ∀ a ∈ (runLoop s evs).tr, isDataWrite a = true := by
  intro a ha
  rcases runLoop_mem_src evs s a ha with ⟨_, _, _, _, _, rfl⟩ | ⟨_, _, _, _, _, rfl⟩ <;> rfl

/-- Helper: the exited flag is never cleared during the loop. -/
theorem runLoop_exited_mono (evs : List Event) :
    ∀ s : RelayState, s.child_exited = true →
      (runLoop s evs).state.child_exited = true := by
  induction evs with
  | nil => intro s h; simpa [runLoop] using h
  | cons e rest ih =>
    intro s h
    cases e with
    | sigchld r =>
      rw [runLoop_sigchld]
      cases r with
      | none => exact ih s h
      | some st => exact ih _ rfl
    | poll p => rw [runLoop_poll_exited s p rest h]; exact h

/-- Helper: an exited flag observed set at the end of the loop was either set
on entry (and the status is unchanged) or was set by a successful handler
reap among the events, whose status is the one recorded. -/
theorem runLoop_status_src (evs : List Event) :
    ∀ s : RelayState, (runLoop s evs).state.child_exited = true →
      (s.child_exited = true ∧ (runLoop s evs).state.child_status = s.child_status) ∨
      ∃ st, Event.sigchld (some st) ∈ evs ∧ (runLoop s evs).state.child_status = st := by
  induction evs with
  | nil =>
    intro s h
    exact Or.inl ⟨by simpa [runLoop] using h, by simp [runLoop]⟩
  | cons e rest ih =>
    intro s h
    cases e with
    | sigchld r =>
      rw [runLoop_sigchld] at h ⊢
      cases r with
      | none =>
        rcases ih s h with hL | ⟨st, hm, hst⟩
        · exact Or.inl hL
        · exact Or.inr ⟨st, List.mem_cons_of_mem _ hm, hst⟩
      | some st0 =>
        rcases ih ⟨true, st0⟩ h with ⟨_, hst⟩ | ⟨st, hm, hst⟩
        · exact Or.inr ⟨st0, List.mem_cons_self _ _, hst⟩
        · exact Or.inr ⟨st, List.mem_cons_of_mem _ hm, hst⟩
    | poll p =>
      cases hs : s.child_exited with
      | true =>
        rw [runLoop_poll_exited s p rest hs]
        exact Or.inl ⟨rfl, rfl⟩
      | false =>
        cases hb : (iterate p).2 with
        | true =>
          rw [runLoop_poll_broke s p rest hs hb] at h
          exact absurd h (by simp [hs])
        | false =>
          rw [runLoop_poll_cont s p rest hs hb] at h ⊢
          rcases ih s h with hL | ⟨st, hm, hst⟩
          · exact absurd hL.1 (by simp [hs])
          · exact Or.inr ⟨st, List.mem_cons_of_mem _ hm, hst⟩

/-- Helper: the drain forwards exactly the chunks before the first failed
read, each unchanged, to stdout. -/
theorem drainActs_eq_takeWhile (dr : List (List Nat)) :
    drainActs dr = (dr.takeWhile fun bs => !bs.isEmpty).map Action.writeStdout := by
  induction dr with
  | nil => rfl
  | cons bs rest ih =>
    cases hbs : bs.isEmpty with
    | true => simp [drainActs, List.takeWhile, hbs]
    | false => simp [drainActs, List.takeWhile, hbs, ih]

/-- Helper: occurrence counts add over concatenation. -/
theorem countAct_append (a : Action) (t1 t2 : List Action) :
    countAct a (t1 ++ t2) = countAct a t1 + countAct a t2 := by
  induction t1 with
  | nil => simp [countAct]
  | cons b rest ih => simp [countAct, ih]; omega

/-- Helper: an action absent from a trace has count zero. -/
theorem countAct_eq_zero (a : Action) (tr : List Action)
    (h : ∀ b ∈ tr, b ≠ a) : countAct a tr = 0 := by
  induction tr with
  | nil => rfl
  | cons b rest ih =>
    have hb := h b (List.mem_cons_self _ _)
    simp only [countAct, if_neg hb, ih fun x hx => h x (List.mem_cons_of_mem _ hx)]

/-- Helper: attribute semantics distributes over concatenation. -/
theorem attrsAfter_append (orig raw : Nat) (t1 t2 : List Action) :
    ∀ cur, attrsAfter orig raw cur (t1 ++ t2) =
      attrsAfter orig raw (attrsAfter orig raw cur t1) t2 := by
  induction t1 with
  | nil => intro cur; rfl
  | cons b rest ih => intro cur; cases b <;> simp [attrsAfter, ih]

/-- Helper: a trace containing no terminal-mode action leaves the console
attributes alone. -/
theorem attrsAfter_no_touch (orig raw : Nat) (tr : List Action)
    (h : ∀ a ∈ tr, a ≠ Action.setRawMode ∧ a ≠ Action.restoreTermios) :
    ∀ cur, attrsAfter orig raw cur tr = cur := by
  induction tr with
  | nil => intro cur; rfl
  | cons b rest ih =>
    intro cur
    have hb := h b (List.mem_cons_self _ _)
    have hr := ih fun x hx => h x (List.mem_cons_of_mem _ hx)
    cases b <;> simp [attrsAfter, hr] <;> simp at hb

/-- Helper: when the loop ends, the run result spelled out. -/
theorem relayRun_ended (hv : Bool) (evs : List Event) (dr : List (List Nat))
    (pr : Option Nat) (b : Nat) (hend : (runLoop ⟨false, 0⟩ evs).ended = true) :
    relayRun hv evs dr pr b =
      some ⟨exitCodeOf (if (sigchld_handler (runLoop ⟨false, 0⟩ evs).state pr).child_exited
              then (sigchld_handler (runLoop ⟨false, 0⟩ evs).state pr).child_status else b),
            (if (sigchld_handler (runLoop ⟨false, 0⟩ evs).state pr).child_exited
              then (sigchld_handler (runLoop ⟨false, 0⟩ evs).state pr).child_status else b),
            (if hv then [Action.setRawMode] else []) ++ (runLoop ⟨false, 0⟩ evs).tr
              ++ drainActs dr ++ [Action.closeMaster]
              ++ (if hv then [Action.restoreTermios] else [])
              ++ (if (sigchld_handler (runLoop ⟨false, 0⟩ evs).state pr).child_exited then []
                  else [Action.reapBlocking])⟩ := by
  by_cases hx : (sigchld_handler (runLoop ⟨false, 0⟩ evs).state pr).child_exited <;>
    simp [relayRun, hend, hx]

/-- Helper: when the event list runs out before the loop ends, no run result
is produced. -/
theorem relayRun_not_ended (hv : Bool) (evs : List Event) (dr : List (List Nat))
    (pr : Option Nat) (b : Nat) (hend : (runLoop ⟨false, 0⟩ evs).ended = false) :
    relayRun hv evs dr pr b = none := by
  simp [relayRun, hend]

/-- Helper: a successful run means the loop ended, and the trace and status
have the teardown shape. -/
theorem relayRun_some (hv : Bool) (evs : List Event) (dr : List (List Nat))
    (pr : Option Nat) (b : Nat) (r : RunResult)
    (h : relayRun hv evs dr pr b = some r) :
    (runLoop ⟨false, 0⟩ evs).ended = true ∧
    r.finalStatus = (if (sigchld_handler (runLoop ⟨false, 0⟩ evs).state pr).child_exited
        then (sigchld_handler (runLoop ⟨false, 0⟩ evs).state pr).child_status else b) ∧
    r.exitCode = exitCodeOf r.finalStatus ∧
    r.trace = (if hv then [Action.setRawMode] else []) ++ (runLoop ⟨false, 0⟩ evs).tr
      ++ drainActs dr ++ [Action.closeMaster]
      ++ (if hv then [Action.restoreTermios] else [])
      ++ (if (sigchld_handler (runLoop ⟨false, 0⟩ evs).state pr).child_exited then []
          else [Action.reapBlocking]) := by
  cases hend : (runLoop ⟨false, 0⟩ evs).ended with
  | false => rw [relayRun_not_ended hv evs dr pr b hend] at h; exact absurd h (by simp)
  | true =>
    rw [relayRun_ended hv evs dr pr b hend] at h
    have := Option.some.inj h
    subst this
    exact ⟨rfl, rfl, rfl, rfl⟩

/-- Helper: every action in the drain trace forwards a chunk of the drain
input unchanged. -/
theorem drainActs_mem (dr : List (List Nat)) :
    ∀ a ∈ drainActs dr, ∃ bs ∈ dr, a = Action.writeStdout bs := by
  intro a ha
  rw [drainActs_eq_takeWhile] at ha
  rcases List.mem_map.mp ha with ⟨bs, hbs, rfl⟩
  exact ⟨bs, (List.takeWhile_prefix _).sublist.subset hbs, rfl⟩

/-- Helper: pointwise description of the stdin transform. -/
theorem lfToCr_getD (bs : List Nat) (i : Nat) :
    (lfToCr bs).getD i 0 = if bs.getD i 0 = 10 then 13 else bs.getD i 0 := by
  unfold lfToCr
  rw [List.getD_eq_getElem?_getD, List.getD_eq_getElem?_getD, List.getElem?_map]
  cases bs[i]? with
  | none => simp
  | some b => by_cases hb : b = 10 <;> simp [hb]

/-- Helper: the exit computation on a status whose low seven bits vanish. -/
theorem exitCodeOf_exit (e : Nat) (he : e < 256) : exitCodeOf (mkExitStatus e) = e := by
  have h127 : e * 256 &&& 127 = 0 := by
    have : e * 256 &&& 2 ^ 7 - 1 = e * 256 % 2 ^ 7 := Nat.and_pow_two_sub_one_eq_mod _ 7
    simpa [Nat.mul_mod_left, show (2 : Nat) ^ 7 = 128 by norm_num,
      show e * 256 = e * 2 * 128 by ring] using this
  have hsh : (e * 256) >>> 8 = e := by
    rw [Nat.shiftRight_eq_div_pow]
    simp [show (2 : Nat) ^ 8 = 256 by norm_num, Nat.mul_div_cancel]
  have h255 : e &&& 255 = e := by
    have : e &&& 2 ^ 8 - 1 = e % 2 ^ 8 := Nat.and_pow_two_sub_one_eq_mod _ 8
    simpa [Nat.mod_eq_of_lt he, show (2 : Nat) ^ 8 = 256 by norm_num] using this
  simp [exitCodeOf, mkExitStatus, WIFEXITED, WEXITSTATUS, h127, hsh, h255]

/-- Helper: the exit computation on a status with a nonzero low seven bits,
the abnormal-termination case. -/
theorem exitCodeOf_signal (st : Nat) (h : st &&& 127 ≠ 0) : exitCodeOf st = 1 := by
  simp [exitCodeOf, WIFEXITED, h]

/-- Helper: membership in a run trace splits into the loop trace, the drain
trace, and the bookkeeping teardown actions. -/
theorem trace_mem_split (hv : Bool) (evs : List Event) (dr : List (List Nat))
    (pr : Option Nat) (b : Nat) (r : RunResult)
    (h : relayRun hv evs dr pr b = some r) :
    ∀ a ∈ r.trace, a ∈ (runLoop ⟨false, 0⟩ evs).tr ∨ a ∈ drainActs dr ∨
      a = Action.setRawMode ∨ a = Action.closeMaster ∨ a = Action.restoreTermios ∨
      a = Action.reapBlocking := by
  intro a ha
  rw [(relayRun_some hv evs dr pr b r h).2.2.2] at ha
  simp only [List.mem_append] at ha
  rcases ha with ((((h1 | h2) | h3) | h4) | h5) | h6
  · cases hv <;> simp_all
  · exact Or.inl h2
  · exact Or.inr (Or.inl h3)
  · simp at h4; simp [h4]
  · cases hv <;> simp_all
  · cases hx : (sigchld_handler (runLoop ⟨false, 0⟩ evs).state pr).child_exited with
    | true => simp [hx] at h6
    | false =>
      simp [hx] at h6
      simp [h6]

/-- Claim C1: every chunk the relay writes to the PTY master during the
running loop is the chunk read from stdin with each line-feed byte (0x0a)
replaced by a carriage-return byte (0x0d) and every other byte — carriage
returns included — unchanged, preserving length and order. -/
theorem stdin_chunk_transform :
    (∀ bs : List Nat, (lfToCr bs).length = bs.length) ∧
    (∀ (bs : List Nat) (i : Nat),
      (lfToCr bs).getD i 0 = if bs.getD i 0 = 10 then 13 else bs.getD i 0) ∧
    (∀ (hv : Bool) (evs : List Event) (dr : List (List Nat)) (pr : Option Nat)
      (b : Nat) (r : RunResult), relayRun hv evs dr pr b = some r →
      ∀ cs : List Nat, Action.writeMaster cs ∈ r.trace →
        ∃ p bs, Event.poll p ∈ evs ∧ stdinChunkOf p = some bs ∧ cs = lfToCr bs) := by
  refine ⟨fun bs => List.length_map _ _, lfToCr_getD, ?_⟩
  intro hv evs dr pr b r h cs hmem
  rcases trace_mem_split hv evs dr pr b r h _ hmem with
    hL | hD | hE | hE | hE | hE
  · rcases runLoop_mem_src evs ⟨false, 0⟩ _ hL with
      ⟨p, bs, hp, h1, _, h3⟩ | ⟨p, bs, hp, h1, h2, h3⟩
    · exact ⟨p, bs, hp, h1, (Action.writeMaster.inj h3).symm ▸ rfl⟩
    · exact absurd h3 (fun hEq => Action.noConfusion hEq)
  · rcases drainActs_mem dr _ hD with ⟨bs, _, hEq⟩
    exact absurd hEq (fun hEq => Action.noConfusion hEq)
  · exact absurd hE (fun hEq => Action.noConfusion hEq)
  · exact absurd hE (fun hEq => Action.noConfusion hEq)
  · exact absurd hE (fun hEq => Action.noConfusion hEq)
  · exact absurd hE (fun hEq => Action.noConfusion hEq)

/-- Witness for stdin_chunk_transform: a concrete run whose single stdin
chunk contains a line feed. -/
theorem stdin_chunk_transform_case :
    ∃ p bs, Event.poll p ∈ [Event.poll (PollOut.ready true false false true
        (ReadRes.data [104, 10, 13]) ReadRes.eof)] ∧
      stdinChunkOf p = some bs ∧ [104, 13, 13] = lfToCr bs :=
  stdin_chunk_transform.2.2 false
    [Event.poll (PollOut.ready true false false true
      (ReadRes.data [104, 10, 13]) ReadRes.eof)] [] none 0
    ⟨0, 0, [Action.writeMaster [104, 13, 13], Action.closeMaster,
      Action.reapBlocking]⟩ (by decide) [104, 13, 13] (by decide)

/-- Claim C2: the relay's own exit status equals the child's exit code (any
value 0 to 255) on normal termination, and equals the fallback 1 on forkpty
failure (where no loop is entered) or abnormal child termination. -/
theorem relay_exit_status :
    (∀ (hv : Bool) (evs : List Event) (dr : List (List Nat)) (pr : Option Nat)
      (b : Nat), relayMain true hv evs dr pr b = some ⟨1, 0, []⟩) ∧
    (∀ e : Nat, e < 256 → exitCodeOf (mkExitStatus e) = e) ∧
    (∀ st : Nat, st &&& 127 ≠ 0 → exitCodeOf st = 1) ∧
    (∀ (hv : Bool) (evs : List Event) (dr : List (List Nat)) (pr : Option Nat)
      (b : Nat) (r : RunResult), relayMain false hv evs dr pr b = some r →
      r.exitCode = exitCodeOf r.finalStatus) := by
  refine ⟨fun hv evs dr pr b => rfl, exitCodeOf_exit, exitCodeOf_signal, ?_⟩
  intro hv evs dr pr b r h
  exact (relayRun_some hv evs dr pr b r (by simpa [relayMain] using h)).2.2.1

/-- Witness for relay_exit_status: setup failure yields 1; a child exiting
with code 127 yields 127; a child killed by signal 9 yields 1. -/
theorem relay_exit_status_case :
    relayMain true false [] [] none 0 = some ⟨1, 0, []⟩ ∧
    exitCodeOf (mkExitStatus 127) = 127 ∧ exitCodeOf 9 = 1 :=
  ⟨relay_exit_status.1 false [] [] none 0,
   relay_exit_status.2.1 127 (by decide),
   relay_exit_status.2.2.1 9 (by decide)⟩

/-- Counterexample to claim C5 as stated: a stdin read failing with errno
EINTR (an interrupted read) does transition the relay out of the running loop
into the draining phase, although the child has not exited. -/
theorem eintr_stdin_read_breaks :
    (runLoop ⟨false, 0⟩ [Event.poll (PollOut.ready true false false false
        (ReadRes.err Errno.eintr) ReadRes.eof)]).ended = true ∧
    (runLoop ⟨false, 0⟩ [Event.poll (PollOut.ready true false false false
        (ReadRes.err Errno.eintr) ReadRes.eof)]).state.child_exited = false := by
  decide

/-- Claim C5 (amended): a poll readiness wait interrupted by an unrelated
signal (EINTR) is retried transparently, with no state change and no output;
but a stdin read returning failure — EINTR included — is treated like any
failed read and transitions the loop to the draining phase. -/
theorem eintr_wait_retried :
    (∀ (s : RelayState) (evs : List Event), s.child_exited = false →
      runLoop s (Event.poll PollOut.eintr :: evs) = runLoop s evs) ∧
    (∀ (mIn sHup mHup : Bool) (mR : ReadRes) (e : Errno),
      iterate (PollOut.ready true mIn sHup mHup (ReadRes.err e) mR) = ([], true)) := by
  constructor
  · intro s evs hs
    rw [runLoop_poll_cont s _ evs hs (by rfl)]
    simp [iterate]
  · intro mIn sHup mHup mR e
    rfl

/-- Witness for eintr_wait_retried: one EINTR poll outcome leaves a concrete
run unchanged. -/
theorem eintr_wait_retried_case :
    runLoop ⟨false, 0⟩ [Event.poll PollOut.eintr] = runLoop ⟨false, 0⟩ [] :=
  eintr_wait_retried.1 ⟨false, 0⟩ [] rfl

/-- Counterexample to claim C6 as stated: with the rows variable set to the
unparsable string abc, the allocated row count is atoi's 0, not the default
24. -/
theorem unparsable_env_rows_zero :
    wsRow (some ['a', 'b', 'c']) = 0 ∧ wsRow (some ['a', 'b', 'c']) ≠ 24 := by
  decide

/-- Claim C6 (amended): absent variables yield the defaults 24 rows and 80
columns, and values 50 and 120 yield exactly 50 by 120; but a variable that
is present is always parsed with atoi — an unparsable value yields 0
converted to unsigned short, not the default. -/
theorem term_dims :
    wsRow none = 24 ∧ wsCol none = 80 ∧
    wsRow (some ['5', '0']) = 50 ∧ wsCol (some ['1', '2', '0']) = 120 ∧
    (∀ s : List Char, wsRow (some s) = toUShort (atoi s)) ∧
    (∀ s : List Char, wsCol (some s) = toUShort (atoi s)) :=
  ⟨by decide, by decide, by decide, by decide, fun s => rfl, fun s => rfl⟩

/-- Counterexample to claim C7 as stated: when the underlying ioctl fails
(returns -1) while the dimensions it left are not all zero (5 by 7), the
wrapper still patches the dimensions from the environment and reports
success — so patching does not happen exactly when the underlying call would
return all-zero dimensions. -/
theorem ioctl_patches_on_failure :
    ioctl TIOCGWINSZ (-1) ⟨5, 7⟩ (some ['5', '0']) (some ['1', '2', '0']) =
      (0, ⟨50, 120⟩) ∧
    ioctl TIOCGWINSZ (-1) ⟨5, 7⟩ (some ['5', '0']) (some ['1', '2', '0']) ≠
      (-1, ⟨5, 7⟩) ∧
    ¬((5 : Nat) = 0 ∧ (7 : Nat) = 0) := by
  exact ⟨by decide, by decide, by decide⟩

/-- Claim C7 (amended): the wrapper forwards every request other than
TIOCGWINSZ to the real ioctl and returns its result verbatim; a TIOCGWINSZ
whose real call succeeds with not-all-zero dimensions is also returned
verbatim; and exactly when the real call fails or leaves all-zero dimensions,
each dimension is patched from its environment variable (kept when the
variable is absent) and success is reported. -/
theorem ioctl_patch_condition :
    (∀ (req : Nat) (rv : Int) (ws : WinSize) (er ec : Option (List Char)),
      req ≠ TIOCGWINSZ → ioctl req rv ws er ec = (rv, ws)) ∧
    (∀ (rv : Int) (ws : WinSize) (er ec : Option (List Char)),
      rv = 0 → ¬(ws.ws_row = 0 ∧ ws.ws_col = 0) →
      ioctl TIOCGWINSZ rv ws er ec = (rv, ws)) ∧
    (∀ (rv : Int) (ws : WinSize) (er ec : Option (List Char)),
      rv ≠ 0 ∨ (ws.ws_row = 0 ∧ ws.ws_col = 0) →
      ioctl TIOCGWINSZ rv ws er ec = (0, patchWinsize ws er ec)) := by
  refine ⟨?_, ?_, ?_⟩
  · intro req rv ws er ec hreq
    simp [ioctl, hreq]
  · intro rv ws er ec h0 hnz
    simp [ioctl, h0, hnz]
  · intro rv ws er ec hcond
    simp [ioctl, hcond]

/-- Witness for ioctl_patch_condition: a forwarded foreign request, a
successful not-all-zero query, and a patched all-zero query with only the
rows variable present. -/
theorem ioctl_patch_condition_case :
    ioctl 0 5 ⟨1, 2⟩ none none = (5, ⟨1, 2⟩) ∧
    ioctl TIOCGWINSZ 0 ⟨3, 4⟩ none none = (0, ⟨3, 4⟩) ∧
    ioctl TIOCGWINSZ 0 ⟨0, 0⟩ (some ['5', '0']) none = (0, ⟨50, 0⟩) :=
  ⟨ioctl_patch_condition.1 0 5 ⟨1, 2⟩ none none (by decide),
   ioctl_patch_condition.2.1 0 ⟨3, 4⟩ none none rfl (by decide),
   (ioctl_patch_condition.2.2 0 ⟨0, 0⟩ (some ['5', '0']) none
     (Or.inr ⟨rfl, rfl⟩)).trans (by decide)⟩

/-- Claim C10: a child that fails to exec terminates with code 127; the relay
treats the resulting wait status as a normal termination, so its own exit
status is 127 rather than the fallback 1. -/
theorem exec_failure_exit :
    WIFEXITED (mkExitStatus execFailCode) = true ∧
    relayRun false [Event.sigchld (some (mkExitStatus execFailCode)),
        Event.poll PollOut.timeout] [] none 0 =
      some ⟨execFailCode, mkExitStatus execFailCode, [Action.closeMaster]⟩ ∧
    execFailCode ≠ 1 := by
  refine ⟨by decide, by decide, by decide⟩

/-- Claim C3: on every run that reaches teardown — clean EOF, read or poll
error, or child-exit-triggered loop end — a successful attribute capture is
reapplied exactly once, so the console attributes after the full trace equal
the captured snapshot; when capture failed, restore is a no-op and the
console attributes are never touched. -/
theorem restore_exactly_once :
    (∀ (evs : List Event) (dr : List (List Nat)) (pr : Option Nat) (b : Nat)
      (r : RunResult), relayRun true evs dr pr b = some r →
      countAct Action.restoreTermios r.trace = 1 ∧
      ∀ orig raw : Nat, attrsAfter orig raw orig r.trace = orig) ∧
    (∀ (evs : List Event) (dr : List (List Nat)) (pr : Option Nat) (b : Nat)
      (r : RunResult), relayRun false evs dr pr b = some r →
      countAct Action.restoreTermios r.trace = 0 ∧
      ∀ orig raw cur : Nat, attrsAfter orig raw cur r.trace = cur) := by
  have hLno : ∀ evs : List Event, ∀ a ∈ (runLoop ⟨false, 0⟩ evs).tr,
      a ≠ Action.setRawMode ∧ a ≠ Action.restoreTermios := by
    intro evs a ha
    have hw := runLoop_mem_isDataWrite evs ⟨false, 0⟩ a ha
    constructor <;> rintro rfl <;> simp [isDataWrite] at hw
  have hDno : ∀ dr : List (List Nat), ∀ a ∈ drainActs dr,
      a ≠ Action.setRawMode ∧ a ≠ Action.restoreTermios := by
    intro dr a ha
    rcases drainActs_mem dr a ha with ⟨bs, _, rfl⟩
    exact ⟨fun hEq => Action.noConfusion hEq, fun hEq => Action.noConfusion hEq⟩
  constructor
  · intro evs dr pr b r h
    have ht := (relayRun_some true evs dr pr b r h).2.2.2
    have hcL : countAct Action.restoreTermios (runLoop ⟨false, 0⟩ evs).tr = 0 :=
      countAct_eq_zero _ _ (fun a ha => (hLno evs a ha).2)
    have hcD : countAct Action.restoreTermios (drainActs dr) = 0 :=
      countAct_eq_zero _ _ (fun a ha => (hDno dr a ha).2)
    constructor
    · rw [ht]
      cases hx : (sigchld_handler (runLoop ⟨false, 0⟩ evs).state pr).child_exited with
      | true => simp [countAct_append, hcL, hcD, countAct, hx]
      | false => simp [countAct_append, hcL, hcD, countAct, hx]
    · intro orig raw
      have hA1 : ∀ cur, attrsAfter orig raw cur (runLoop ⟨false, 0⟩ evs).tr = cur :=
        attrsAfter_no_touch orig raw _ (hLno evs)
      have hA2 : ∀ cur, attrsAfter orig raw cur (drainActs dr) = cur :=
        attrsAfter_no_touch orig raw _ (hDno dr)
      rw [ht]
      cases hx : (sigchld_handler (runLoop ⟨false, 0⟩ evs).state pr).child_exited with
      | true => simp [attrsAfter_append, hA1, hA2, attrsAfter, hx]
      | false => simp [attrsAfter_append, hA1, hA2, attrsAfter, hx]
  · intro evs dr pr b r h
    have ht := (relayRun_some false evs dr pr b r h).2.2.2
    have hcL : countAct Action.restoreTermios (runLoop ⟨false, 0⟩ evs).tr = 0 :=
      countAct_eq_zero _ _ (fun a ha => (hLno evs a ha).2)
    have hcD : countAct Action.restoreTermios (drainActs dr) = 0 :=
      countAct_eq_zero _ _ (fun a ha => (hDno dr a ha).2)
    constructor
    · rw [ht]
      cases hx : (sigchld_handler (runLoop ⟨false, 0⟩ evs).state pr).child_exited with
      | true => simp [countAct_append, hcL, hcD, countAct, hx]
      | false => simp [countAct_append, hcL, hcD, countAct, hx]
    · intro orig raw cur
      have hA1 : ∀ c, attrsAfter orig raw c (runLoop ⟨false, 0⟩ evs).tr = c :=
        attrsAfter_no_touch orig raw _ (hLno evs)
      have hA2 : ∀ c, attrsAfter orig raw c (drainActs dr) = c :=
        attrsAfter_no_touch orig raw _ (hDno dr)
      rw [ht]
      cases hx : (sigchld_handler (runLoop ⟨false, 0⟩ evs).state pr).child_exited with
      | true => simp [attrsAfter_append, hA1, hA2, attrsAfter, hx]
      | false => simp [attrsAfter_append, hA1, hA2, attrsAfter, hx]

/-- Witness for restore_exactly_once: a concrete run with capture succeeded —
one restore in the trace, and the attributes return to the snapshot. -/
theorem restore_exactly_once_case :
    countAct Action.restoreTermios [Action.setRawMode, Action.closeMaster,
      Action.restoreTermios, Action.reapBlocking] = 1 ∧
    attrsAfter 5 9 5 [Action.setRawMode, Action.closeMaster,
      Action.restoreTermios, Action.reapBlocking] = 5 :=
  ⟨(restore_exactly_once.1 [Event.poll PollOut.errOther] [] none 0
      ⟨0, 0, [Action.setRawMode, Action.closeMaster, Action.restoreTermios,
        Action.reapBlocking]⟩ (by decide)).1,
   (restore_exactly_once.1 [Event.poll PollOut.errOther] [] none 0
      ⟨0, 0, [Action.setRawMode, Action.closeMaster, Action.restoreTermios,
        Action.reapBlocking]⟩ (by decide)).2 5 9⟩

/-- Claim C4: every chunk read from the PTY master — in the running loop and
in the draining phase — reaches stdout byte-identical: the loop writes
exactly the bytes read, the drain forwards exactly the chunks read, and every
writeStdout payload of a full run is a master chunk of the events or a drain
chunk, unchanged. -/
theorem master_to_stdout_identity :
    (∀ bs : List Nat, bs ≠ [] →
      masterStep true (ReadRes.data bs) = ([Action.writeStdout bs], false)) ∧
    (∀ dr : List (List Nat),
      drainActs dr = (dr.takeWhile fun bs => !bs.isEmpty).map Action.writeStdout) ∧
    (∀ (hv : Bool) (evs : List Event) (dr : List (List Nat)) (pr : Option Nat)
      (b : Nat) (r : RunResult), relayRun hv evs dr pr b = some r →
      ∀ bs : List Nat, Action.writeStdout bs ∈ r.trace →
        (∃ p, Event.poll p ∈ evs ∧ masterChunkOf p = some bs) ∨ bs ∈ dr) := by
  refine ⟨?_, drainActs_eq_takeWhile, ?_⟩
  · intro bs hbs
    cases bs with
    | nil => exact absurd rfl hbs
    | cons x xs => rfl
  · intro hv evs dr pr b r h bs hmem
    rcases trace_mem_split hv evs dr pr b r h _ hmem with hL | hD | hE | hE | hE | hE
    · rcases runLoop_mem_src evs ⟨false, 0⟩ _ hL with
        ⟨p, cs, hp, h1, h2, h3⟩ | ⟨p, cs, hp, h1, h2, h3⟩
      · exact absurd h3 (fun hEq => Action.noConfusion hEq)
      · have hbc := Action.writeStdout.inj h3
        exact Or.inl ⟨p, hp, by rw [hbc]; exact h1⟩
    · rcases drainActs_mem dr _ hD with ⟨cs, hcs, hEq⟩
      have hbc := Action.writeStdout.inj hEq
      exact Or.inr (by rw [hbc]; exact hcs)
    · exact absurd hE (fun hEq => Action.noConfusion hEq)
    · exact absurd hE (fun hEq => Action.noConfusion hEq)
    · exact absurd hE (fun hEq => Action.noConfusion hEq)
    · exact absurd hE (fun hEq => Action.noConfusion hEq)

/-- Witness for master_to_stdout_identity: a run with one master chunk during
the loop and one drained chunk, both reaching stdout unchanged. -/
theorem master_to_stdout_identity_case :
    ((∃ p, Event.poll p ∈ [Event.poll (PollOut.ready false true false true
        ReadRes.eof (ReadRes.data [114, 10]))] ∧ masterChunkOf p = some [114, 10]) ∨
      [114, 10] ∈ [[13]]) ∧
    ((∃ p, Event.poll p ∈ [Event.poll (PollOut.ready false true false true
        ReadRes.eof (ReadRes.data [114, 10]))] ∧ masterChunkOf p = some [13]) ∨
      [13] ∈ [[13]]) :=
  ⟨master_to_stdout_identity.2.2 false
      [Event.poll (PollOut.ready false true false true ReadRes.eof
        (ReadRes.data [114, 10]))] [[13]] none 0
      ⟨0, 0, [Action.writeStdout [114, 10], Action.writeStdout [13],
        Action.closeMaster, Action.reapBlocking]⟩ (by decide) [114, 10] (by decide),
   master_to_stdout_identity.2.2 false
      [Event.poll (PollOut.ready false true false true ReadRes.eof
        (ReadRes.data [114, 10]))] [[13]] none 0
      ⟨0, 0, [Action.writeStdout [114, 10], Action.writeStdout [13],
        Action.closeMaster, Action.reapBlocking]⟩ (by decide) [13] (by decide)⟩

/-- Claim C8: every run that leaves the main loop reaches teardown: the drain
trace is forwarded inside the full trace, the master descriptor is closed
exactly once and only after all data writes, a blocking wait runs exactly
when the exited flag was never set, and in every ended run the child is
reaped — by a successful handler reap among the events (or the post-loop
delivery) or by the blocking wait. -/
theorem teardown_always_runs :
    ∀ (hv : Bool) (evs : List Event) (dr : List (List Nat)) (pr : Option Nat)
      (b : Nat) (r : RunResult), relayMain false hv evs dr pr b = some r →
      List.IsInfix (drainActs dr) r.trace ∧
      countAct Action.closeMaster r.trace = 1 ∧
      (∃ t1 t2, r.trace = t1 ++ Action.closeMaster :: t2 ∧
        ∀ a ∈ t2, isDataWrite a = false) ∧
      ((sigchld_handler (runLoop ⟨false, 0⟩ evs).state pr).child_exited = false →
        Action.reapBlocking ∈ r.trace) ∧
      ((sigchld_handler (runLoop ⟨false, 0⟩ evs).state pr).child_exited = true →
        Action.reapBlocking ∉ r.trace ∧
        ((∃ st, pr = some st) ∨ ∃ st, Event.sigchld (some st) ∈ evs)) := by
  intro hv evs dr pr b r h
  have h' : relayRun hv evs dr pr b = some r := by simpa [relayMain] using h
  have ht := (relayRun_some hv evs dr pr b r h').2.2.2
  have hcL : countAct Action.closeMaster (runLoop ⟨false, 0⟩ evs).tr = 0 :=
    countAct_eq_zero _ _ (fun a ha => by
      have hw := runLoop_mem_isDataWrite evs ⟨false, 0⟩ a ha
      rintro rfl
      simp [isDataWrite] at hw)
  have hcD : countAct Action.closeMaster (drainActs dr) = 0 :=
    countAct_eq_zero _ _ (fun a ha => by
      rcases drainActs_mem dr a ha with ⟨cs, _, rfl⟩
      exact fun hEq => Action.noConfusion hEq)
  refine ⟨?_, ?_, ?_, ?_, ?_⟩
  · refine ⟨(if hv then [Action.setRawMode] else []) ++ (runLoop ⟨false, 0⟩ evs).tr,
      [Action.closeMaster] ++ (if hv then [Action.restoreTermios] else [])
        ++ (if (sigchld_handler (runLoop ⟨false, 0⟩ evs).state pr).child_exited then []
            else [Action.reapBlocking]), ?_⟩
    rw [ht]
    simp [List.append_assoc]
  · rw [ht]
    cases hx : (sigchld_handler (runLoop ⟨false, 0⟩ evs).state pr).child_exited with
    | true => cases hv <;> simp [countAct_append, hcL, hcD, countAct, hx]
    | false => cases hv <;> simp [countAct_append, hcL, hcD, countAct, hx]
  · refine ⟨(if hv then [Action.setRawMode] else []) ++ (runLoop ⟨false, 0⟩ evs).tr
        ++ drainActs dr,
      (if hv then [Action.restoreTermios] else [])
        ++ (if (sigchld_handler (runLoop ⟨false, 0⟩ evs).state pr).child_exited then []
            else [Action.reapBlocking]), ?_, ?_⟩
    · rw [ht]
      simp [List.append_assoc]
    · intro a ha
      rcases List.mem_append.mp ha with ha | ha
      · cases hv <;> simp_all [isDataWrite]
      · cases hx : (sigchld_handler (runLoop ⟨false, 0⟩ evs).state pr).child_exited with
        | true => simp [hx] at ha
        | false =>
          simp [hx] at ha
          simp [ha, isDataWrite]
  · intro hx
    rw [ht]
    simp [hx]
  · intro hx
    constructor
    · intro hmem
      rw [ht] at hmem
      simp only [hx, if_true, List.append_nil, List.mem_append] at hmem
      rcases hmem with (((hA | hB) | hC) | hD') | hE
      · cases hv <;> simp_all
      · have hw := runLoop_mem_isDataWrite evs ⟨false, 0⟩ _ hB
        simp [isDataWrite] at hw
      · rcases drainActs_mem dr _ hC with ⟨cs, _, hEq⟩
        exact Action.noConfusion hEq
      · simp at hD'
      · cases hv <;> simp_all
    · cases pr with
      | some st => exact Or.inl ⟨st, rfl⟩
      | none =>
        refine Or.inr ?_
        have hx' : (runLoop ⟨false, 0⟩ evs).state.child_exited = true := hx
        rcases runLoop_status_src evs ⟨false, 0⟩ hx' with ⟨hbad, _⟩ | ⟨st, hm, _⟩
        · exact absurd hbad (by simp)
        · exact ⟨st, hm⟩

/-- Witness for teardown_always_runs: a concrete run ended by a poll error,
with one drained chunk and the child never reaped by the handler. -/
theorem teardown_always_runs_case :
    List.IsInfix (drainActs [[65]]) [Action.setRawMode, Action.writeStdout [65],
      Action.closeMaster, Action.restoreTermios, Action.reapBlocking] ∧
    countAct Action.closeMaster [Action.setRawMode, Action.writeStdout [65],
      Action.closeMaster, Action.restoreTermios, Action.reapBlocking] = 1 ∧
    (∃ t1 t2, [Action.setRawMode, Action.writeStdout [65], Action.closeMaster,
        Action.restoreTermios, Action.reapBlocking] = t1 ++ Action.closeMaster :: t2 ∧
      ∀ a ∈ t2, isDataWrite a = false) ∧
    ((sigchld_handler (runLoop ⟨false, 0⟩ [Event.poll PollOut.errOther]).state
        none).child_exited = false →
      Action.reapBlocking ∈ [Action.setRawMode, Action.writeStdout [65],
        Action.closeMaster, Action.restoreTermios, Action.reapBlocking]) ∧
    ((sigchld_handler (runLoop ⟨false, 0⟩ [Event.poll PollOut.errOther]).state
        none).child_exited = true →
      Action.reapBlocking ∉ [Action.setRawMode, Action.writeStdout [65],
        Action.closeMaster, Action.restoreTermios, Action.reapBlocking] ∧
      ((∃ st, (none : Option Nat) = some st) ∨
        ∃ st, Event.sigchld (some st) ∈ [Event.poll PollOut.errOther])) :=
  teardown_always_runs true [Event.poll PollOut.errOther] [[65]] none 5
    ⟨1, 5, [Action.setRawMode, Action.writeStdout [65], Action.closeMaster,
      Action.restoreTermios, Action.reapBlocking]⟩ (by decide)

/-- Claim C9: the SIGCHLD handler records the reap status and sets the flag
as one atomic step from the main loop's point of view (and touches nothing
when the non-blocking reap finds no child); the flag, once set, is never
cleared by any later events; and whenever the main loop observes the flag
set, a successful handler reap occurred among the consumed events and the
recorded status is that reap's raw status. -/
theorem exit_flag_ordering :
    (∀ s : RelayState, sigchld_handler s none = s) ∧
    (∀ (s : RelayState) (st : Nat), sigchld_handler s (some st) = ⟨true, st⟩) ∧
    (∀ (evs : List Event) (s : RelayState), s.child_exited = true →
      (runLoop s evs).state.child_exited = true) ∧
    (∀ evs : List Event, (runLoop ⟨false, 0⟩ evs).state.child_exited = true →
      ∃ st, Event.sigchld (some st) ∈ evs ∧
        (runLoop ⟨false, 0⟩ evs).state.child_status = st) := by
  refine ⟨fun s => rfl, fun s st => rfl, runLoop_exited_mono, ?_⟩
  intro evs h
  rcases runLoop_status_src evs ⟨false, 0⟩ h with ⟨hbad, _⟩ | ⟨st, hm, hst⟩
  · exact absurd hbad (by simp)
  · exact ⟨st, hm, hst⟩

/-- Witness for exit_flag_ordering: the flag set before a poll event stays
set, and a concrete handler reap is the source of an observed flag. -/
theorem exit_flag_ordering_case :
    (runLoop ⟨true, 7⟩ [Event.poll PollOut.timeout]).state.child_exited = true ∧
    ∃ st, Event.sigchld (some st) ∈ [Event.sigchld (some 9)] ∧
      (runLoop ⟨false, 0⟩ [Event.sigchld (some 9)]).state.child_status = st :=
  ⟨exit_flag_ordering.2.2.1 [Event.poll PollOut.timeout] ⟨true, 7⟩ rfl,
   exit_flag_ordering.2.2.2 [Event.sigchld (some 9)] (by decide)⟩

end Wrapix
